import Mathlib

/-!
Verification of the GIF→WebP optimizer core (optimizer.ts, qualityMetrics.ts,
frameAnalyzer.worker.ts) against its natural-language specification.

The TypeScript code is shallowly embedded: machine numbers become exact
rationals (selection policy, generator, SSIM) or reals (PSNR, ΔE, edge
detection, which use sqrt / pow / log); fallible metric functions return
`Except String`; the per-candidate selection loop of `optimizeGifToWebp`
becomes explicit structural recursion over the candidate list.
-/

/-! ## Data model (optimizer.ts) -/

/-- Strategy tag of an `OptimizationConfig` (`encodingStrategy` union type). -/
inductive EncodingStrategy
  | pureLossless
  | nearLossless
  | hybrid
  | optimizedLossy
deriving DecidableEq, Repr

/-- Denoise strength union type (`"light" | "medium" | "strong"`). -/
inductive DenoiseStrength
  | light
  | medium
  | strong
deriving DecidableEq, Repr

/-- `OptimizationConfig` interface from optimizer.ts.  Optional (`?`) fields
become `Option`. -/
structure OptimizationConfig where
  quality : ℕ
  compression : ℕ
  preset : String
  scaleFilter : String
  ditherMethod : String
  pixelFormat : String
  usePalette : Bool
  lossless : Bool
  method : Option ℕ := none
  nearLossless : Option ℕ := none
  useSharpYuv : Option Bool := none
  encodingStrategy : Option EncodingStrategy := none
  removeDuplicates : Option Bool := none
  deltaEncoding : Option Bool := none
  denoise : Option Bool := none
  denoiseStrength : Option DenoiseStrength := none
  minKeyframeInterval : Option ℕ := none
  maxKeyframeInterval : Option ℕ := none
  mixedMode : Option Bool := none
deriving DecidableEq, Repr

/-- `QualityMetrics` record as consumed by the selection policy (the four
scores computed by `calculateAllMetrics`). -/
structure QualityMetrics where
  ssim : ℚ
  psnr : ℚ
  deltaE : ℚ
  edgePreservation : ℚ
deriving DecidableEq, Repr

/-- `GifMetadata` interface from gifAnalyzer.ts. -/
structure GifMetadata where
  frameCount : ℕ
  fps : ℚ
  width : ℕ
  height : ℕ
  hasAlpha : Bool
  duration : ℚ
  avgBitrate : ℚ
deriving DecidableEq, Repr

/-- A successfully encoded candidate (`CandidateResult` in optimizer.ts),
together with the outcome of its quality-metric evaluation: `metrics = none`
models the `calculateAllMetrics` call throwing for that candidate (the
`catch`/`continue` branch of the selection loop).  The blob itself is not
modelled; only its measured size matters to selection. -/
structure Candidate where
  config : OptimizationConfig
  sizeKB : ℚ
  metrics : Option QualityMetrics
deriving DecidableEq, Repr

/-! ## Selection policy (optimizeGifToWebp, lines 163–243) -/

/-- Per-strategy quality gate from the selection loop of `optimizeGifToWebp`
(lines 174–198).  The trailing `else` branch of the source covers both
`optimized-lossy` and a missing strategy tag. -/
def meetsQualityCriteria (config : OptimizationConfig) (m : QualityMetrics) : Bool :=
  if config.encodingStrategy = some .pureLossless then
    decide (m.ssim ≥ 0.99)
  else if config.encodingStrategy = some .nearLossless then
    decide (m.ssim ≥ 0.97 ∧ m.deltaE ≤ 3.0 ∧ m.edgePreservation ≥ 0.93)
  else if config.encodingStrategy = some .hybrid then
    decide (m.ssim ≥ 0.96 ∧ m.deltaE ≤ 4.0 ∧ m.edgePreservation ≥ 0.92)
  else
    decide (m.ssim ≥ 0.95 ∧ m.deltaE ≤ 5.0 ∧ m.edgePreservation ≥ 0.90)

/-- Relaxed global criterion (line 201): `ssim ≥ 0.92` for every strategy. -/
def meetsRelaxedCriteria (m : QualityMetrics) : Bool :=
  decide (m.ssim ≥ 0.92)

/-- A candidate enters scoring iff it meets its strategy criteria or the
relaxed criterion (line 203). -/
def qualifiesGate (config : OptimizationConfig) (m : QualityMetrics) : Bool :=
  meetsQualityCriteria config m || meetsRelaxedCriteria m

/-- Weighted score of a qualifying candidate (lines 204–220). -/
def computeScore (lossless : Bool) (m : QualityMetrics) (sizeKB : ℚ) : ℚ :=
  let qualityWeight : ℚ := if lossless then 0.5 else 0.7
  let sizeWeight : ℚ := if lossless then 0.5 else 0.3
  let qualityScore : ℚ :=
    m.ssim * 0.4 + (1 - min (m.deltaE / 10) 1) * 0.3 + m.edgePreservation * 0.3
  let sizeScore : ℚ := 1 / sizeKB
  qualityScore * qualityWeight + sizeScore * sizeWeight

/-- Whether a candidate qualifies: its metric evaluation succeeded and the
gate accepts the metrics. -/
def candQualifies (c : Candidate) : Bool :=
  match c.metrics with
  | none => false
  | some m => qualifiesGate c.config m

/-- Score of a candidate as used by the loop (only meaningful when the
candidate qualifies; `0` for candidates whose metric evaluation failed). -/
def candScore (lossless : Bool) (c : Candidate) : ℚ :=
  match c.metrics with
  | none => 0
  | some m => computeScore lossless m c.sizeKB

/-- The best-candidate loop of `optimizeGifToWebp` (lines 163–231): walk the
candidates in order, skip those whose metric computation failed, and keep the
strictly best score seen so far (`score > bestScore`, initial best
`-Infinity` modelled by the `none` accumulator). -/
def selectLoop (lossless : Bool) : List Candidate → Option (Candidate × ℚ) → Option (Candidate × ℚ)
  | [], best => best
  | c :: rest, best =>
    match c.metrics with
    | none => selectLoop lossless rest best
    | some m =>
      if qualifiesGate c.config m then
        let score := computeScore lossless m c.sizeKB
        match best with
        | none => selectLoop lossless rest (some (c, score))
        | some (b, bs) =>
          if score > bs then selectLoop lossless rest (some (c, score))
          else selectLoop lossless rest (some (b, bs))
      else selectLoop lossless rest best

/-- Selection policy of `optimizeGifToWebp` (lines 163–243): the scoring loop
followed by the fallback `candidates.reduce` that picks the highest
`config.quality` (strict `>`, so ties keep the earlier candidate).  `none` is
returned only for an empty candidate list, which the caller has already turned
into a thrown error (line 153). -/
def selectBestCandidate (candidates : List Candidate) (lossless : Bool) : Option Candidate :=
  match selectLoop lossless candidates none with
  | some (b, _) => some b
  | none =>
    match candidates with
    | [] => none
    | c0 :: rest =>
      some (rest.foldl (fun best cur =>
        if cur.config.quality > best.config.quality then cur else best) c0)

/-! ## Spec-side predicates for the selection policy -/

/-- Modelled from the spec's threshold table (§4.6 step 2): the per-strategy
quality thresholds exactly as the claim states them. -/
def specMeetsThresholds (s : EncodingStrategy) (m : QualityMetrics) : Prop :=
  match s with
  | .pureLossless => m.ssim ≥ 0.99
  | .nearLossless => m.ssim ≥ 0.97 ∧ m.deltaE ≤ 3.0 ∧ m.edgePreservation ≥ 0.93
  | .hybrid => m.ssim ≥ 0.96 ∧ m.deltaE ≤ 4.0 ∧ m.edgePreservation ≥ 0.92
  | .optimizedLossy => m.ssim ≥ 0.95 ∧ m.deltaE ≤ 5.0 ∧ m.edgePreservation ≥ 0.90

instance (s : EncodingStrategy) (m : QualityMetrics) : Decidable (specMeetsThresholds s m) := by
  cases s <;> simp only [specMeetsThresholds] <;> infer_instance

/-! ## Candidate generator (generateOptimizationConfigs, lines 313–546) -/

/-- One configuration of the size-preserving (lossy) branch (lines 526–540). -/
def lossyConfig (pixelFormat0 : String) (usePalette : Bool) (quality compression : ℕ) :
    OptimizationConfig :=
  { quality := quality
    compression := compression
    preset := "picture"
    scaleFilter := "lanczos"
    ditherMethod := "bayer:bayer_scale=2"
    pixelFormat := pixelFormat0
    usePalette := usePalette
    lossless := false
    method := some 4
    useSharpYuv := some false
    encodingStrategy := some .optimizedLossy
    removeDuplicates := some false
    deltaEncoding := some false }

/-- Inner compression-level loop of the lossy branch (lines 523–541): the
`break` fires when six configurations have accumulated, before any push. -/
def lossyInner (pixelFormat0 : String) (usePalette : Bool) (quality : ℕ) :
    List ℕ → List OptimizationConfig → List OptimizationConfig
  | [], configs => configs
  | compression :: rest, configs =>
    if 6 ≤ configs.length then configs
    else lossyInner pixelFormat0 usePalette quality rest
      (configs ++ [lossyConfig pixelFormat0 usePalette quality compression])

/-- `generateOptimizationConfigs` (lines 313–546).  The quality-preserving
branch pushes the ten hand-written strategies in source order; the lossy
branch crosses quality levels `[85, 80, 75]` with compression levels
`[5, 4, 3]`, capped at six. -/
def generateOptimizationConfigs (metadata : GifMetadata) (paletteSize : ℕ)
    (lossless : Bool) : List OptimizationConfig :=
  let pixelFormat0 : String := if metadata.hasAlpha then "yuva444p" else "yuv420p"
  let usePalette : Bool := 0 < paletteSize && paletteSize ≤ 256
  let hasManyFrames : Bool := 20 < metadata.frameCount
  if lossless then
    [ -- strategy 1: pure lossless, maximum compression
      { quality := 100, compression := 6, preset := "picture", scaleFilter := "lanczos"
        ditherMethod := "bayer:bayer_scale=2", pixelFormat := pixelFormat0
        usePalette := false, lossless := true, method := some 6
        useSharpYuv := some false, encodingStrategy := some .pureLossless
        removeDuplicates := some hasManyFrames, deltaEncoding := some hasManyFrames
        denoise := some false
        minKeyframeInterval := if 50 < metadata.frameCount then some 10 else none
        maxKeyframeInterval := if 50 < metadata.frameCount then some 100 else none },
      -- strategy 2: pure lossless, balanced compression
      { quality := 100, compression := 5, preset := "picture", scaleFilter := "lanczos"
        ditherMethod := "bayer:bayer_scale=2", pixelFormat := pixelFormat0
        usePalette := false, lossless := true, method := some 4
        useSharpYuv := some false, encodingStrategy := some .pureLossless
        removeDuplicates := some hasManyFrames, deltaEncoding := some hasManyFrames },
      -- strategy 3: near lossless, strength 60
      { quality := 100, compression := 6, preset := "picture", scaleFilter := "lanczos"
        ditherMethod := "bayer:bayer_scale=2", pixelFormat := pixelFormat0
        usePalette := false, lossless := true, method := some 6
        nearLossless := some 60, useSharpYuv := some false
        encodingStrategy := some .nearLossless
        removeDuplicates := some hasManyFrames, deltaEncoding := some hasManyFrames },
      -- strategy 4: near lossless, strength 40
      { quality := 100, compression := 6, preset := "picture", scaleFilter := "lanczos"
        ditherMethod := "bayer:bayer_scale=2", pixelFormat := pixelFormat0
        usePalette := false, lossless := true, method := some 6
        nearLossless := some 40, useSharpYuv := some false
        encodingStrategy := some .nearLossless
        removeDuplicates := some hasManyFrames, deltaEncoding := some hasManyFrames },
      -- strategy 5: near lossless, strength 20
      { quality := 100, compression := 6, preset := "picture", scaleFilter := "lanczos"
        ditherMethod := "bayer:bayer_scale=2", pixelFormat := pixelFormat0
        usePalette := false, lossless := true, method := some 6
        nearLossless := some 20, useSharpYuv := some false
        encodingStrategy := some .nearLossless
        removeDuplicates := some hasManyFrames, deltaEncoding := some hasManyFrames },
      -- strategy 6: hybrid, sharp YUV
      { quality := 98, compression := 6, preset := "picture", scaleFilter := "lanczos"
        ditherMethod := "floyd_steinberg", pixelFormat := pixelFormat0
        usePalette := false, lossless := false, method := some 6
        useSharpYuv := some true, encodingStrategy := some .hybrid
        removeDuplicates := some hasManyFrames, deltaEncoding := some hasManyFrames },
      -- strategy 7: optimized lossy, top quality
      { quality := 95, compression := 6, preset := "picture", scaleFilter := "lanczos"
        ditherMethod := "floyd_steinberg", pixelFormat := pixelFormat0
        usePalette := false, lossless := false, method := some 6
        useSharpYuv := some true, encodingStrategy := some .optimizedLossy
        removeDuplicates := some hasManyFrames, deltaEncoding := some hasManyFrames },
      -- strategy 8: fast near lossless, strength 50
      { quality := 90, compression := 4, preset := "picture", scaleFilter := "lanczos"
        ditherMethod := "bayer:bayer_scale=2", pixelFormat := pixelFormat0
        usePalette := false, lossless := true, method := some 3
        nearLossless := some 50, useSharpYuv := some false
        encodingStrategy := some .nearLossless
        removeDuplicates := some hasManyFrames, deltaEncoding := some hasManyFrames },
      -- strategy 9: near lossless with light denoise, strength 30
      { quality := 100, compression := 6, preset := "picture", scaleFilter := "lanczos"
        ditherMethod := "floyd_steinberg", pixelFormat := pixelFormat0
        usePalette := false, lossless := true, method := some 6
        nearLossless := some 30, useSharpYuv := some false
        encodingStrategy := some .nearLossless
        removeDuplicates := some hasManyFrames, deltaEncoding := some hasManyFrames
        denoise := some true, denoiseStrength := some .light },
      -- strategy 10: hybrid with medium denoise
      { quality := 96, compression := 6, preset := "picture", scaleFilter := "lanczos"
        ditherMethod := "floyd_steinberg", pixelFormat := pixelFormat0
        usePalette := false, lossless := false, method := some 6
        useSharpYuv := some true, encodingStrategy := some .hybrid
        removeDuplicates := some hasManyFrames, deltaEncoding := some hasManyFrames
        denoise := some true, denoiseStrength := some .medium } ]
  else
    [85, 80, 75].foldl
      (fun configs quality => lossyInner pixelFormat0 usePalette quality [5, 4, 3] configs)
      []

/-! ## Frame deduplication (frameAnalyzer.worker.ts, lines 54–60 and 152–179) -/

/-- Hamming distance between two hash strings (lines 54–60): count of
positions, up to the shorter length, where the characters differ. -/
def hammingDistance (hash1 hash2 : List Char) : ℕ :=
  (hash1.zip hash2).countP (fun p => p.1 ≠ p.2)

/-- Fixed similarity threshold of the duplicate-frame detector (line 154). -/
def dedupThreshold : ℕ := 3

/-- Duplicate-frame detection loop (lines 152–179): `framesToKeep` starts as
`[0]`, and for each `i ≥ 1` the frame is appended iff its Hamming distance to
the hash of the last kept frame exceeds the threshold. -/
def framesToKeepCode (hashes : List (List Char)) : List ℕ :=
  ((List.range hashes.length).drop 1).foldl
    (fun keep i =>
      let anchor := keep.getLastD 0
      if dedupThreshold < hammingDistance (hashes.getD i []) (hashes.getD anchor []) then
        keep ++ [i]
      else keep)
    [0]

/-- Anchored greedy walk as the claim words it: the most recently kept frame
is the comparison anchor; frame `i` is kept iff its Hamming distance to the
anchor's hash exceeds the threshold, in which case `i` becomes the new
anchor. -/
def dedupSpecGo (hashes : List (List Char)) (anchor i : ℕ) : List ℕ :=
  if h : i < hashes.length then
    if dedupThreshold < hammingDistance (hashes.getD i []) (hashes.getD anchor []) then
      i :: dedupSpecGo hashes i (i + 1)
    else
      dedupSpecGo hashes anchor (i + 1)
  else []
termination_by hashes.length - i

/-- Spec-side kept-frame list: index 0 is always kept and anchors the walk
over indices `1, 2, …`. -/
def framesToKeepSpec (hashes : List (List Char)) : List ℕ :=
  0 :: dedupSpecGo hashes 0 1

/-! ## Quality metric engine (qualityMetrics.ts) -/

/-- `ImageData` as consumed by the metric functions: flat RGBA byte array
plus dimensions. -/
structure ImageData where
  data : List ℕ
  width : ℕ
  height : ℕ
deriving DecidableEq, Repr

/-- Raw byte read `img.data[i]` (out-of-range reads default to 0; the
theorems restrict to well-formed RGBA grids where every read is in range). -/
def px (img : ImageData) (i : ℕ) : ℚ :=
  (img.data.getD i 0 : ℕ)

/-- Luminance helper (lines 286–288): `0.299·R + 0.587·G + 0.114·B`. -/
def rgbToLuminance (r g b : ℚ) : ℚ :=
  0.299 * r + 0.587 * g + 0.114 * b

/-- Mean of a list of samples (lines 290–292). -/
def listMean (values : List ℚ) : ℚ :=
  values.sum / values.length

/-- Variance about a given mean (lines 294–299). -/
def listVariance (values : List ℚ) (mu : ℚ) : ℚ :=
  (values.map (fun val => (val - mu) ^ 2)).sum / values.length

/-- Covariance of two equally long sample lists (lines 301–312). -/
def listCovariance (values1 values2 : List ℚ) (mu1 mu2 : ℚ) : ℚ :=
  ((values1.zip values2).map (fun p => (p.1 - mu1) * (p.2 - mu2))).sum / values1.length

/-- SSIM stabilizing constant C1 = (0.01·255)². -/
def ssimC1 : ℚ := 6.5025

/-- SSIM stabilizing constant C2 = (0.03·255)². -/
def ssimC2 : ℚ := 58.5225

/-- SSIM block size (line 78). -/
def blockSize : ℕ := 8

/-- Luminance of the pixel at `(x, y)`. -/
def lumAt (img : ImageData) (x y : ℕ) : ℚ :=
  let idx := (y * img.width + x) * 4
  rgbToLuminance (px img idx) (px img (idx + 1)) (px img (idx + 2))

/-- Luminance samples of the 8×8 block whose top-left corner is `(x, y)`,
collected row by row (lines 85–101). -/
def blockLums (img : ImageData) (x y : ℕ) : List ℚ :=
  (List.range blockSize).flatMap
    (fun dy => (List.range blockSize).map (fun dx => lumAt img (x + dx) (y + dy)))

/-- SSIM of one 8×8 block (lines 103–113). -/
def blockSSIM (img1 img2 : ImageData) (x y : ℕ) : ℚ :=
  let block1 := blockLums img1 x y
  let block2 := blockLums img2 x y
  let mu1 := listMean block1
  let mu2 := listMean block2
  let sigma1Sq := listVariance block1 mu1
  let sigma2Sq := listVariance block2 mu2
  let sigma12 := listCovariance block1 block2 mu1 mu2
  ((2 * mu1 * mu2 + ssimC1) * (2 * sigma12 + ssimC2)) /
    ((mu1 * mu1 + mu2 * mu2 + ssimC1) * (sigma1Sq + sigma2Sq + ssimC2))

/-- Top-left corners visited by a `for (v = 0; v < limit; v += 8)` loop:
`0, 8, 16, …` strictly below `limit`.  Partial blocks at the edge are never
visited. -/
def blockStarts (limit : ℕ) : List ℕ :=
  (List.range ((limit + 7) / 8)).map (· * 8)

/-- `calculateSSIM` (lines 62–121): average the block SSIM over all full
blocks; with no full block the function returns 0. -/
def calculateSSIM (img1 img2 : ImageData) : Except String ℚ :=
  if img1.width ≠ img2.width ∨ img1.height ≠ img2.height ∨
      img1.data.length ≠ img2.data.length then
    .error "Image dimensions must match"
  else
    let scores :=
      (blockStarts (img1.height - blockSize)).flatMap
        (fun y => (blockStarts (img1.width - blockSize)).map
          (fun x => blockSSIM img1 img2 x y))
    .ok (if 0 < scores.length then scores.sum / scores.length else 0)

/-- Indices visited by a `for (i = 0; i < len; i += step)` loop. -/
def strideIdxs (len step : ℕ) : List ℕ :=
  (List.range ((len + (step - 1)) / step)).map (· * step)

/-- `calculatePSNR` (lines 127–162): mean squared error over the R, G, B
channels of every pixel, then `20·log10(255/√MSE)`; bit-identical images
(MSE exactly 0) give `+∞` (the `⊤` of `EReal`). -/
noncomputable def calculatePSNR (img1 img2 : ImageData) : Except String EReal :=
  if img1.width ≠ img2.width ∨ img1.height ≠ img2.height ∨
      img1.data.length ≠ img2.data.length then
    .error "Image dimensions must match"
  else
    let idxs := strideIdxs img1.data.length 4
    let mseSum : ℚ :=
      (idxs.map (fun i =>
        (px img1 i - px img2 i) ^ 2 + (px img1 (i + 1) - px img2 (i + 1)) ^ 2 +
          (px img1 (i + 2) - px img2 (i + 2)) ^ 2)).sum
    let count : ℕ := 3 * idxs.length
    let mse : ℚ := mseSum / count
    if mse = 0 then .ok ⊤
    else .ok (((20 * Real.logb 10 (255 / Real.sqrt (mse : ℝ))) : ℝ) : EReal)

/-- Gamma expansion of one sRGB channel (lines 325–327). -/
noncomputable def srgbToLinear (c : ℝ) : ℝ :=
  if c > 0.04045 then ((c + 0.055) / 1.055) ^ (2.4 : ℝ) else c / 12.92

/-- The XYZ→Lab component nonlinearity (lines 338–340). -/
noncomputable def labF (t : ℝ) : ℝ :=
  if t > 0.008856 then t ^ ((1 : ℝ) / 3) else 7.787 * t + 16 / 116

/-- `rgbToLab` (lines 315–347): sRGB bytes → linear RGB → XYZ (D65) → L*a*b*,
returned as an `(L, a, b)` triple. -/
noncomputable def rgbToLab (r0 g0 b0 : ℚ) : ℝ × ℝ × ℝ :=
  let r := srgbToLinear ((r0 : ℝ) / 255)
  let g := srgbToLinear ((g0 : ℝ) / 255)
  let b := srgbToLinear ((b0 : ℝ) / 255)
  let x := (r * 0.4124564 + g * 0.3575761 + b * 0.1804375) / 0.95047
  let y := (r * 0.2126729 + g * 0.7151522 + b * 0.072175) / 1.0
  let z := (r * 0.0193339 + g * 0.119192 + b * 0.9503041) / 1.08883
  let fx := labF x
  let fy := labF y
  let fz := labF z
  (116 * fy - 16, 500 * (fx - fy), 200 * (fy - fz))

/-- `deltaE2000` (lines 350–360): the simplified Euclidean ΔE*ab distance in
Lab space (not full CIEDE2000). -/
noncomputable def deltaE2000 (lab1 lab2 : ℝ × ℝ × ℝ) : ℝ :=
  Real.sqrt ((lab1.1 - lab2.1) ^ 2 + (lab1.2.1 - lab2.2.1) ^ 2 +
    (lab1.2.2 - lab2.2.2) ^ 2)

/-- Sampling rate of `calculateDeltaE2000` (line 181): every 100th pixel. -/
def samplingRate : ℕ := 100

/-- `calculateDeltaE2000` (lines 168–204): average the simplified Lab
distance over the sampled pixels. -/
noncomputable def calculateDeltaE2000 (img1 img2 : ImageData) : Except String ℝ :=
  if img1.width ≠ img2.width ∨ img1.height ≠ img2.height ∨
      img1.data.length ≠ img2.data.length then
    .error "Image dimensions must match"
  else
    let idxs := strideIdxs img1.data.length (4 * samplingRate)
    let dists := idxs.map (fun i =>
      deltaE2000 (rgbToLab (px img1 i) (px img1 (i + 1)) (px img1 (i + 2)))
        (rgbToLab (px img2 i) (px img2 (i + 1)) (px img2 (i + 2))))
    .ok (if 0 < dists.length then dists.sum / dists.length else 0)

/-- Sobel horizontal kernel entry at row `ky`, column `kx` (lines 246–250). -/
def sobelX (ky kx : ℕ) : ℚ :=
  match ky, kx with
  | 0, 0 => -1 | 0, 1 => 0 | 0, 2 => 1
  | 1, 0 => -2 | 1, 1 => 0 | 1, 2 => 2
  | 2, 0 => -1 | 2, 1 => 0 | 2, 2 => 1
  | _, _ => 0

/-- Sobel vertical kernel entry at row `ky`, column `kx` (lines 251–255). -/
def sobelY (ky kx : ℕ) : ℚ :=
  match ky, kx with
  | 0, 0 => -1 | 0, 1 => -2 | 0, 2 => -1
  | 1, 0 => 0 | 1, 1 => 0 | 1, 2 => 0
  | 2, 0 => 1 | 2, 1 => 2 | 2, 2 => 1
  | _, _ => 0

/-- Normalized Sobel gradient magnitude at interior pixel `(x, y)` (lines
259–277); only evaluated with `1 ≤ x` and `1 ≤ y`, so the `x - 1 + kx`
offsets reproduce the source's `x + kx, kx ∈ {-1,0,1}`. -/
noncomputable def sobelMag (img : ImageData) (x y : ℕ) : ℚ × ℚ :=
  let gx := ((List.range 3).flatMap (fun ky => (List.range 3).map
    (fun kx => lumAt img (x - 1 + kx) (y - 1 + ky) * sobelX ky kx))).sum
  let gy := ((List.range 3).flatMap (fun ky => (List.range 3).map
    (fun kx => lumAt img (x - 1 + kx) (y - 1 + ky) * sobelY ky kx))).sum
  (gx, gy)

/-- `detectEdges` (lines 241–282): per-pixel normalized gradient magnitude;
border pixels keep the array's initial value 0. -/
noncomputable def detectEdges (img : ImageData) : List ℝ :=
  (List.range (img.width * img.height)).map (fun i =>
    let y := i / img.width
    let x := i % img.width
    if 1 ≤ y ∧ y + 1 < img.height ∧ 1 ≤ x ∧ x + 1 < img.width then
      let g := sobelMag img x y
      Real.sqrt ((g.1 : ℝ) ^ 2 + (g.2 : ℝ) ^ 2) / 255
    else 0)

open Classical in
/-- `calculateEdgePreservation` (lines 210–236): a position counts as an edge
if either image's magnitude exceeds 0.1; preservation is the fraction of edge
positions whose magnitudes differ by less than 0.1 (1 when there are no edge
positions at all). -/
noncomputable def calculateEdgePreservation (img1 img2 : ImageData) : Except String ℝ :=
  if img1.width ≠ img2.width ∨ img1.height ≠ img2.height then
    .error "Image dimensions must match"
  else
    let pairs := (detectEdges img1).zip (detectEdges img2)
    let totalEdges := pairs.countP (fun p => decide (p.1 > 0.1 ∨ p.2 > 0.1))
    let matchingEdges := pairs.countP
      (fun p => decide ((p.1 > 0.1 ∨ p.2 > 0.1) ∧ |p.1 - p.2| < 0.1))
    .ok (if 0 < totalEdges then (matchingEdges : ℝ) / totalEdges else 1)

/-! ## Concrete instances used by witnesses and counterexamples -/

/-- A hybrid-tagged configuration (strategy 6 shape) for gate witnesses. -/
def cfgHybrid : OptimizationConfig :=
  { quality := 98, compression := 6, preset := "picture", scaleFilter := "lanczos"
    ditherMethod := "floyd_steinberg", pixelFormat := "yuv420p", usePalette := false
    lossless := false, method := some 6, useSharpYuv := some true
    encodingStrategy := some .hybrid }

/-- Metrics that fail the hybrid thresholds but pass the relaxed gate. -/
def mSample : QualityMetrics := ⟨0.95, 30, 4.5, 0.91⟩

/-- Sample metadata for generator evaluations. -/
def sampleMetadata : GifMetadata := ⟨30, 10, 100, 100, false, 3, 1⟩

/-- A candidate whose metric evaluation threw (no metrics). -/
def candFailedMetrics : Candidate := ⟨lossyConfig "yuv420p" false 80 5, 120, none⟩

/-- A candidate with metrics failing every threshold. -/
def candBadMetrics : Candidate := ⟨lossyConfig "yuv420p" false 95 5, 90, some ⟨0.5, 20, 12, 0.4⟩⟩

/-- A candidate with metrics passing its strategy thresholds. -/
def candGood : Candidate := ⟨lossyConfig "yuv420p" false 95 5, 90, some ⟨0.99, 40, 1, 0.99⟩⟩

/-- A 1×1 black RGBA image. -/
def tiny1 : ImageData := ⟨[0, 0, 0, 255], 1, 1⟩

/-- A 2×1 black RGBA image (width differs from `tiny1`). -/
def tinyWide : ImageData := ⟨[0, 0, 0, 255, 0, 0, 0, 255], 2, 1⟩

/-- A 1×1 colored RGBA image. -/
def tinyColor : ImageData := ⟨[100, 150, 200, 255], 1, 1⟩

/-- A 9×9 all-black RGBA image: the smallest shape with one full SSIM block. -/
def img9 : ImageData := ⟨List.replicate 324 0, 9, 9⟩

/-- A 9×9 black/white checkerboard. -/
def cbImg1 : ImageData :=
  ⟨(List.range 81).flatMap (fun i =>
      if (i % 9 + i / 9) % 2 = 0 then [255, 255, 255, 255] else [0, 0, 0, 255]), 9, 9⟩

/-- The inverted 9×9 checkerboard. -/
def cbImg2 : ImageData :=
  ⟨(List.range 81).flatMap (fun i =>
      if (i % 9 + i / 9) % 2 = 0 then [0, 0, 0, 255] else [255, 255, 255, 255]), 9, 9⟩

/-- A 3×3 all-black RGBA image (uniform, hence gradient-free). -/
def flat3black : ImageData := ⟨List.replicate 36 0, 3, 3⟩

/-- A 3×3 all-white RGBA image (uniform, hence gradient-free). -/
def flat3white : ImageData := ⟨List.replicate 36 255, 3, 3⟩

/-- A single-frame hash list. -/
def hashesSingle : List (List Char) := [['0', '1', '0', '1']]

/-- A three-frame hash list whose middle frame is near-identical to frame 0. -/
def hashesThree : List (List Char) :=
  [['0', '0', '0', '0', '0'], ['0', '0', '0', '0', '1'], ['1', '1', '1', '1', '1']]

/-! ## C1: the quality gate of the selection policy -/

/-- C1: a candidate with strategy `s` passes the selection gate exactly when
its metrics satisfy `s`'s thresholds (pure-lossless: ssim ≥ 0.99;
near-lossless: ssim ≥ 0.97 ∧ ΔE ≤ 3 ∧ edge ≥ 0.93; hybrid: ssim ≥ 0.96 ∧
ΔE ≤ 4 ∧ edge ≥ 0.92; optimized-lossy: ssim ≥ 0.95 ∧ ΔE ≤ 5 ∧ edge ≥ 0.90)
or when the relaxed global threshold ssim ≥ 0.92 holds. -/
theorem C1_quality_gate (c : OptimizationConfig) (s : EncodingStrategy)
    (m : QualityMetrics) (hs : c.encodingStrategy = some s) :
    qualifiesGate c m = true ↔ (specMeetsThresholds s m ∨ m.ssim ≥ 0.92) := by
  cases s <;>
    simp [qualifiesGate, meetsQualityCriteria, meetsRelaxedCriteria,
      specMeetsThresholds, hs]

/-- Witness for C1 at a concrete hybrid candidate and concrete metrics. -/
theorem C1_quality_gate_witness :
    qualifiesGate cfgHybrid mSample = true ↔
      (specMeetsThresholds .hybrid mSample ∨ mSample.ssim ≥ 0.92) :=
  C1_quality_gate cfgHybrid .hybrid mSample rfl

/-! ## C7: dimension mismatch is an error -/

/-- C7: each of the four metric functions returns the dimension-mismatch
error (and hence no numeric score) whenever the grids differ in width or in
height. -/
theorem C7_dimension_mismatch (img1 img2 : ImageData)
    (h : img1.width ≠ img2.width ∨ img1.height ≠ img2.height) :
    calculateSSIM img1 img2 = .error "Image dimensions must match" ∧
    calculatePSNR img1 img2 = .error "Image dimensions must match" ∧
    calculateDeltaE2000 img1 img2 = .error "Image dimensions must match" ∧
    calculateEdgePreservation img1 img2 = .error "Image dimensions must match" := by
  have h3 : img1.width ≠ img2.width ∨ img1.height ≠ img2.height ∨
      img1.data.length ≠ img2.data.length := by tauto
  refine ⟨?_, ?_, ?_, ?_⟩
  · rw [calculateSSIM, if_pos h3]
  · rw [calculatePSNR, if_pos h3]
  · rw [calculateDeltaE2000, if_pos h3]
  · rw [calculateEdgePreservation, if_pos h]

/-- Witness for C7 at two grids of different widths. -/
theorem C7_dimension_mismatch_witness :
    calculateSSIM tiny1 tinyWide = .error "Image dimensions must match" ∧
    calculatePSNR tiny1 tinyWide = .error "Image dimensions must match" ∧
    calculateDeltaE2000 tiny1 tinyWide = .error "Image dimensions must match" ∧
    calculateEdgePreservation tiny1 tinyWide = .error "Image dimensions must match" :=
  C7_dimension_mismatch tiny1 tinyWide (Or.inl (by decide))

/-! ## C8: generator bounds -/

/-- C8: for every metadata, palette size and mode flag the generator returns
between 1 and 10 configurations (10 in quality-preserving mode, 6 in
size-preserving mode); determinism is definitional, the generator being a
pure function of its three arguments. -/
theorem C8_generator_bounds (metadata : GifMetadata) (paletteSize : ℕ)
    (lossless : Bool) :
    generateOptimizationConfigs metadata paletteSize lossless ≠ [] ∧
      (generateOptimizationConfigs metadata paletteSize lossless).length ≤ 10 := by
  have h : (generateOptimizationConfigs metadata paletteSize lossless).length =
      if lossless then 10 else 6 := by
    cases lossless <;> rfl
  constructor
  · intro hnil
    rw [hnil] at h
    cases lossless <;> simp at h
  · rw [h]
    cases lossless <;> simp

/-! ## C9: strategy ordering of the quality-preserving branch -/

/-- Counterexample to C9: with concrete metadata, the 8th configuration
(index 7) is near-lossless yet follows the hybrid configuration at index 5,
so near-lossless configurations do not all precede hybrid ones. -/
theorem C9_counterexample :
    ¬ ∀ i j : Fin (generateOptimizationConfigs sampleMetadata 0 true).length,
        ((generateOptimizationConfigs sampleMetadata 0 true).get i).encodingStrategy =
          some .nearLossless →
        ((generateOptimizationConfigs sampleMetadata 0 true).get j).encodingStrategy =
          some .hybrid →
        (i : ℕ) < (j : ℕ) := by
  decide

/-- C9 as amended: the quality-preserving branch emits, in order, two
pure-lossless configurations, near-lossless with strengths 60, 40, 20, a
hybrid, an optimized-lossy, then two more near-lossless (strengths 50, 30)
and one more hybrid.  Pure-lossless thus precedes everything else, but
near-lossless does not globally precede hybrid, hybrid does not globally
precede optimized-lossy, and near-lossless strengths are emitted
most-aggressive-first (60, 40, 20), not strictest-first. -/
theorem C9_lossless_strategy_order (metadata : GifMetadata) (paletteSize : ℕ) :
    (generateOptimizationConfigs metadata paletteSize true).map
        (fun c => c.encodingStrategy) =
      [some .pureLossless, some .pureLossless, some .nearLossless,
        some .nearLossless, some .nearLossless, some .hybrid,
        some .optimizedLossy, some .nearLossless, some .nearLossless,
        some .hybrid] ∧
    (generateOptimizationConfigs metadata paletteSize true).map
        (fun c => c.nearLossless) =
      [none, none, some 60, some 40, some 20, none, none, some 50, some 30,
        none] :=
  ⟨rfl, rfl⟩

/-! ## C4: frame deduplication -/

/-- The first `drop` of the index range is the tail range. -/
theorem range_drop_one (n : ℕ) : (List.range n).drop 1 = List.range' 1 (n - 1) := by
  cases n with
  | zero => rfl
  | succ k =>
    rw [List.range_eq_range', List.range'_succ]
    simp

/-- The dedup fold from any non-empty kept list whose last element is
`a` appends exactly the anchored walk starting at anchor `a`. -/
theorem dedup_fold_go (hashes : List (List Char)) :
    ∀ (n i : ℕ) (keep : List ℕ) (a : ℕ), n = hashes.length - i →
      keep.getLastD 0 = a →
      (List.range' i n).foldl
        (fun keep i =>
          let anchor := keep.getLastD 0
          if dedupThreshold <
              hammingDistance (hashes.getD i []) (hashes.getD anchor []) then
            keep ++ [i]
          else keep)
        keep = keep ++ dedupSpecGo hashes a i := by
  intro n
  induction n with
  | zero =>
    intro i keep a hn ha
    have hi : ¬ i < hashes.length := by omega
    rw [dedupSpecGo, dif_neg hi]
    simp
  | succ k ih =>
    intro i keep a hn ha
    have hi : i < hashes.length := by omega
    rw [List.range'_succ, List.foldl_cons]
    rw [dedupSpecGo, dif_pos hi]
    simp only [ha]
    by_cases hd : dedupThreshold <
        hammingDistance (hashes.getD i []) (hashes.getD a [])
    · rw [if_pos hd, if_pos hd, ih (i + 1) (keep ++ [i]) i (by omega)
        (List.getLastD_concat _ _ _), List.append_assoc]
      rfl
    · rw [if_neg hd, if_neg hd, ih (i + 1) keep a (by omega) ha]

/-- Every index produced by the anchored walk from position `i` is at least
`i`. -/
theorem dedupSpecGo_ge (hashes : List (List Char)) :
    ∀ (n a i : ℕ), n = hashes.length - i →
      ∀ j ∈ dedupSpecGo hashes a i, i ≤ j := by
  intro n
  induction n with
  | zero =>
    intro a i hn j hj
    have hi : ¬ i < hashes.length := by omega
    rw [dedupSpecGo, dif_neg hi] at hj
    cases hj
  | succ k ih =>
    intro a i hn j hj
    have hi : i < hashes.length := by omega
    rw [dedupSpecGo, dif_pos hi] at hj
    by_cases hd : dedupThreshold <
        hammingDistance (hashes.getD i []) (hashes.getD a [])
    · rw [if_pos hd] at hj
      rcases List.mem_cons.mp hj with rfl | hj
      · exact le_refl j
      · exact le_of_lt (Nat.lt_of_lt_of_le (Nat.lt_succ_self i)
          (ih i (i + 1) (by omega) j hj))
    · rw [if_neg hd] at hj
      exact le_of_lt (Nat.lt_of_lt_of_le (Nat.lt_succ_self i)
        (ih a (i + 1) (by omega) j hj))

/-- The anchored walk, prefixed by any smaller index, is strictly
increasing. -/
theorem dedupSpecGo_chain (hashes : List (List Char)) :
    ∀ (n a i p : ℕ), n = hashes.length - i → p < i →
      List.Chain' (· < ·) (p :: dedupSpecGo hashes a i) := by
  intro n
  induction n with
  | zero =>
    intro a i p hn hp
    have hi : ¬ i < hashes.length := by omega
    rw [dedupSpecGo, dif_neg hi]
    simp
  | succ k ih =>
    intro a i p hn hp
    have hi : i < hashes.length := by omega
    rw [dedupSpecGo, dif_pos hi]
    by_cases hd : dedupThreshold <
        hammingDistance (hashes.getD i []) (hashes.getD a [])
    · rw [if_pos hd]
      exact List.Chain'.cons hp (ih i (i + 1) i (by omega) (Nat.lt_succ_self i))
    · rw [if_neg hd]
      exact ih a (i + 1) p (by omega) (by omega)

/-- C4: the duplicate-frame detection loop coincides with the anchored greedy
walk described by the claim (index 0 always kept; index `i ≥ 1` kept iff its
Hamming distance to the most recently kept frame's hash exceeds the threshold
3, whereupon `i` becomes the anchor); the kept list starts with 0 and is
strictly increasing; and with fewer than two frames it is exactly `[0]`. -/
theorem C4_dedup_invariants (hashes : List (List Char)) :
    framesToKeepCode hashes = framesToKeepSpec hashes ∧
    (framesToKeepCode hashes).head? = some 0 ∧
    List.Chain' (· < ·) (framesToKeepCode hashes) ∧
    (hashes.length ≤ 1 → framesToKeepCode hashes = [0]) := by
  have hspec : framesToKeepCode hashes = framesToKeepSpec hashes := by
    rw [framesToKeepCode, range_drop_one,
      dedup_fold_go hashes (hashes.length - 1) 1 [0] 0 rfl rfl]
    rfl
  refine ⟨hspec, ?_, ?_, ?_⟩
  · rw [hspec]; rfl
  · rw [hspec]
    exact dedupSpecGo_chain hashes (hashes.length - 1) 0 1 0 rfl Nat.zero_lt_one
  · intro hlen
    rw [hspec, framesToKeepSpec, dedupSpecGo, dif_neg (by omega)]

/-- Witness for C4 at a one-frame hash list: the single-frame animation keeps
exactly `[0]`, which starts with 0 and is strictly increasing. -/
theorem C4_dedup_invariants_witness :
    framesToKeepCode hashesSingle = framesToKeepSpec hashesSingle ∧
    (framesToKeepCode hashesSingle).head? = some 0 ∧
    List.Chain' (· < ·) (framesToKeepCode hashesSingle) ∧
    framesToKeepCode hashesSingle = [0] := by
  have h := C4_dedup_invariants hashesSingle
  exact ⟨h.1, h.2.1, h.2.2.1, h.2.2.2 (by decide)⟩

/-! ## C2 and C3: winner selection and fallback -/

/-- If no candidate qualifies, the scoring loop leaves the accumulator
untouched. -/
theorem selectLoop_of_no_qualifier (lossless : Bool) :
    ∀ (cs : List Candidate) (acc : Option (Candidate × ℚ)),
      (∀ c ∈ cs, candQualifies c = false) → selectLoop lossless cs acc = acc := by
  intro cs
  induction cs with
  | nil => intro acc _; rfl
  | cons c rest ih =>
    intro acc h
    have hc := h c (List.mem_cons_self c rest)
    have hrest : ∀ x ∈ rest, candQualifies x = false :=
      fun x hx => h x (List.mem_cons_of_mem c hx)
    cases hm : c.metrics with
    | none =>
      simp only [selectLoop, hm]
      exact ih acc hrest
    | some m =>
      have hcf : qualifiesGate c.config m = false := by
        simpa [candQualifies, hm] using hc
      simp only [selectLoop, hm, hcf, Bool.false_eq_true, if_false]
      exact ih acc hrest

/-- The quality-maximizing fallback `reduce`: its result occurs in the list,
its quality bounds every quality, and it is the first list element attaining
that maximal quality. -/
theorem fallback_reduce_spec :
    ∀ (rest : List Candidate) (c0 : Candidate),
      (rest.foldl (fun best cur =>
          if cur.config.quality > best.config.quality then cur else best) c0)
          ∈ c0 :: rest ∧
      (∀ c ∈ c0 :: rest, c.config.quality ≤
        (rest.foldl (fun best cur =>
          if cur.config.quality > best.config.quality then cur else best)
          c0).config.quality) ∧
      (c0 :: rest).find? (fun c => decide (c.config.quality =
          (rest.foldl (fun best cur =>
            if cur.config.quality > best.config.quality then cur else best)
            c0).config.quality)) =
        some (rest.foldl (fun best cur =>
          if cur.config.quality > best.config.quality then cur else best) c0) := by
  intro rest
  induction rest with
  | nil =>
    intro c0
    refine ⟨List.mem_cons_self _ _, ?_, ?_⟩
    · intro c hc
      rcases List.mem_cons.mp hc with rfl | hc
      · exact le_refl _
      · cases hc
    · simp [List.find?_cons]
  | cons c1 rest ih =>
    intro c0
    rw [List.foldl_cons]
    by_cases hq : c1.config.quality > c0.config.quality
    · rw [if_pos hq]
      obtain ⟨hmem, hbound, hfind⟩ := ih c1
      have hlt : c0.config.quality <
          (rest.foldl (fun best cur =>
            if cur.config.quality > best.config.quality then cur else best)
            c1).config.quality :=
        lt_of_lt_of_le hq (hbound c1 (List.mem_cons_self _ _))
      refine ⟨List.mem_cons_of_mem _ hmem, ?_, ?_⟩
      · intro c hc
        rcases List.mem_cons.mp hc with rfl | hc
        · exact le_of_lt hlt
        · exact hbound c hc
      · rw [List.find?_cons_of_neg _ (by simp [Nat.ne_of_lt hlt])]
        exact hfind
    · rw [if_neg hq]
      obtain ⟨hmem, hbound, hfind⟩ := ih c0
      have hle : c1.config.quality ≤ c0.config.quality := Nat.le_of_not_lt hq
      refine ⟨?_, ?_, ?_⟩
      · rcases List.mem_cons.mp hmem with he | hm
        · rw [he]; exact List.mem_cons_self _ _
        · exact List.mem_cons_of_mem _ (List.mem_cons_of_mem _ hm)
      · intro c hc
        rcases List.mem_cons.mp hc with rfl | hc
        · exact hbound c (List.mem_cons_self _ _)
        · rcases List.mem_cons.mp hc with rfl | hc
          · exact le_trans hle (hbound c0 (List.mem_cons_self _ _))
          · exact hbound c (List.mem_cons_of_mem _ hc)
      · by_cases h0 : c0.config.quality =
            (rest.foldl (fun best cur =>
              if cur.config.quality > best.config.quality then cur else best)
              c0).config.quality
        · rw [List.find?_cons_of_pos _ (by simp [h0])] at hfind ⊢
          exact hfind
        · have hlt0 : c0.config.quality <
              (rest.foldl (fun best cur =>
                if cur.config.quality > best.config.quality then cur else best)
                c0).config.quality :=
            lt_of_le_of_ne (hbound c0 (List.mem_cons_self _ _)) h0
          have h1 : c1.config.quality ≠
              (rest.foldl (fun best cur =>
                if cur.config.quality > best.config.quality then cur else best)
                c0).config.quality :=
            Nat.ne_of_lt (lt_of_le_of_lt hle hlt0)
          rw [List.find?_cons_of_neg _ (by simp [h0])] at hfind
          rw [List.find?_cons_of_neg _ (by simp [h0]),
            List.find?_cons_of_neg _ (by simp [h1])]
          exact hfind

/-- Invariant of the scoring loop: starting from a qualifying best pair
`(b0, score b0)`, it returns a qualifying candidate with its own score, at
least as good as both the start and every qualifier in the remaining list. -/
theorem selectLoop_invariant (lossless : Bool) :
    ∀ (cs : List Candidate) (b0 : Candidate),
      candQualifies b0 = true →
      ∃ b s, selectLoop lossless cs (some (b0, candScore lossless b0)) = some (b, s) ∧
        candQualifies b = true ∧ s = candScore lossless b ∧
        candScore lossless b0 ≤ s ∧ (b = b0 ∨ b ∈ cs) ∧
        ∀ c ∈ cs, candQualifies c = true → candScore lossless c ≤ s := by
  intro cs
  induction cs with
  | nil =>
    intro b0 hb0
    exact ⟨b0, candScore lossless b0, rfl, hb0, rfl, le_refl _, Or.inl rfl,
      by intro c hc; cases hc⟩
  | cons c rest ih =>
    intro b0 hb0
    cases hm : c.metrics with
    | none =>
      have hcq : candQualifies c = false := by simp [candQualifies, hm]
      obtain ⟨b, s, hrun, hq, hs, hge, hmem, hbnd⟩ := ih b0 hb0
      refine ⟨b, s, ?_, hq, hs, hge, ?_, ?_⟩
      · simp only [selectLoop, hm]
        exact hrun
      · rcases hmem with rfl | hmem
        · exact Or.inl rfl
        · exact Or.inr (List.mem_cons_of_mem _ hmem)
      · intro x hx hqx
        rcases List.mem_cons.mp hx with rfl | hx
        · rw [hcq] at hqx; cases hqx
        · exact hbnd x hx hqx
    | some m =>
      by_cases hg : qualifiesGate c.config m = true
      · have hcq : candQualifies c = true := by simp [candQualifies, hm, hg]
        have hcs : candScore lossless c = computeScore lossless m c.sizeKB := by
          simp [candScore, hm]
        by_cases hgt : computeScore lossless m c.sizeKB > candScore lossless b0
        · obtain ⟨b, s, hrun, hq, hs, hge, hmem, hbnd⟩ := ih c hcq
          rw [hcs] at hrun hge
          refine ⟨b, s, ?_, hq, hs, le_trans (le_of_lt hgt) hge, ?_, ?_⟩
          · simp only [selectLoop, hm, hg, if_pos, if_true]
            rw [if_pos hgt]
            exact hrun
          · rcases hmem with rfl | hmem
            · exact Or.inr (List.mem_cons_self _ _)
            · exact Or.inr (List.mem_cons_of_mem _ hmem)
          · intro x hx hqx
            rcases List.mem_cons.mp hx with rfl | hx
            · rw [hcs]; exact hge
            · exact hbnd x hx hqx
        · obtain ⟨b, s, hrun, hq, hs, hge, hmem, hbnd⟩ := ih b0 hb0
          refine ⟨b, s, ?_, hq, hs, hge, ?_, ?_⟩
          · simp only [selectLoop, hm, hg, if_pos, if_true]
            rw [if_neg hgt]
            exact hrun
          · rcases hmem with rfl | hmem
            · exact Or.inl rfl
            · exact Or.inr (List.mem_cons_of_mem _ hmem)
          · intro x hx hqx
            rcases List.mem_cons.mp hx with rfl | hx
            · rw [hcs]
              exact le_trans (le_of_not_lt hgt) hge
            · exact hbnd x hx hqx
      · have hcq : candQualifies c = false := by
          simp only [candQualifies, hm]
          exact Bool.not_eq_true _ ▸ (by simpa using hg)
        obtain ⟨b, s, hrun, hq, hs, hge, hmem, hbnd⟩ := ih b0 hb0
        refine ⟨b, s, ?_, hq, hs, hge, ?_, ?_⟩
        · simp only [selectLoop, hm, hg]
          simpa using hrun
        · rcases hmem with rfl | hmem
          · exact Or.inl rfl
          · exact Or.inr (List.mem_cons_of_mem _ hmem)
        · intro x hx hqx
          rcases List.mem_cons.mp hx with rfl | hx
          · rw [hcq] at hqx; cases hqx
          · exact hbnd x hx hqx

/-- Starting from the empty accumulator, if some candidate qualifies then
the scoring loop returns a qualifying candidate from the list whose score
bounds every qualifier's score. -/
theorem selectLoop_some_of_qualifier (lossless : Bool) :
    ∀ (cs : List Candidate),
      (∃ c ∈ cs, candQualifies c = true) →
      ∃ b s, selectLoop lossless cs none = some (b, s) ∧
        candQualifies b = true ∧ s = candScore lossless b ∧ b ∈ cs ∧
        ∀ c ∈ cs, candQualifies c = true → candScore lossless c ≤ s := by
  intro cs
  induction cs with
  | nil => rintro ⟨c, hc, _⟩; cases hc
  | cons c rest ih =>
    intro hex
    cases hm : c.metrics with
    | none =>
      have hcq : candQualifies c = false := by simp [candQualifies, hm]
      have hex' : ∃ x ∈ rest, candQualifies x = true := by
        rcases hex with ⟨x, hx, hqx⟩
        rcases List.mem_cons.mp hx with rfl | hx
        · rw [hcq] at hqx; cases hqx
        · exact ⟨x, hx, hqx⟩
      obtain ⟨b, s, hrun, hq, hs, hmem, hbnd⟩ := ih hex'
      refine ⟨b, s, ?_, hq, hs, List.mem_cons_of_mem _ hmem, ?_⟩
      · simp only [selectLoop, hm]
        exact hrun
      · intro x hx hqx
        rcases List.mem_cons.mp hx with rfl | hx
        · rw [hcq] at hqx; cases hqx
        · exact hbnd x hx hqx
    | some m =>
      by_cases hg : qualifiesGate c.config m = true
      · have hcq : candQualifies c = true := by simp [candQualifies, hm, hg]
        have hcs : candScore lossless c = computeScore lossless m c.sizeKB := by
          simp [candScore, hm]
        obtain ⟨b, s, hrun, hq, hs, hge, hmem, hbnd⟩ :=
          selectLoop_invariant lossless rest c hcq
        rw [hcs] at hrun hge
        refine ⟨b, s, ?_, hq, hs, ?_, ?_⟩
        · simp only [selectLoop, hm, hg, if_pos, if_true]
          exact hrun
        · rcases hmem with rfl | hmem
          · exact List.mem_cons_self _ _
          · exact List.mem_cons_of_mem _ hmem
        · intro x hx hqx
          rcases List.mem_cons.mp hx with rfl | hx
          · rw [hcs]; exact hge
          · exact hbnd x hx hqx
      · have hcq : candQualifies c = false := by
          simp only [candQualifies, hm]
          simpa using hg
        have hex' : ∃ x ∈ rest, candQualifies x = true := by
          rcases hex with ⟨x, hx, hqx⟩
          rcases List.mem_cons.mp hx with rfl | hx
          · rw [hcq] at hqx; cases hqx
          · exact ⟨x, hx, hqx⟩
        obtain ⟨b, s, hrun, hq, hs, hmem, hbnd⟩ := ih hex'
        refine ⟨b, s, ?_, hq, hs, List.mem_cons_of_mem _ hmem, ?_⟩
        · simp only [selectLoop, hm, hg]
          simpa using hrun
        · intro x hx hqx
          rcases List.mem_cons.mp hx with rfl | hx
          · rw [hcq] at hqx; cases hqx
          · exact hbnd x hx hqx

/-- C2: when at least one candidate encoded successfully but none qualifies
under any threshold, selection still returns a winner (never empty), and the
winner is the candidate of maximal `config.quality`, ties resolved in favor
of the first-generated candidate (it is the first element attaining the
maximal quality). -/
theorem C2_fallback_law (candidates : List Candidate) (lossless : Bool)
    (hne : candidates ≠ [])
    (hnq : ∀ c ∈ candidates, candQualifies c = false) :
    ∃ w, selectBestCandidate candidates lossless = some w ∧ w ∈ candidates ∧
      (∀ c ∈ candidates, c.config.quality ≤ w.config.quality) ∧
      candidates.find? (fun c => decide (c.config.quality = w.config.quality)) =
        some w := by
  have hloop : selectLoop lossless candidates none = none :=
    selectLoop_of_no_qualifier lossless candidates none hnq
  cases candidates with
  | nil => exact absurd rfl hne
  | cons c0 rest =>
    obtain ⟨hmem, hbound, hfind⟩ := fallback_reduce_spec rest c0
    refine ⟨_, ?_, hmem, hbound, hfind⟩
    rw [selectBestCandidate.eq_def, hloop]

/-- Witness for C2: two non-qualifying candidates; the winner exists and is
the quality-95 candidate. -/
theorem C2_fallback_law_witness :
    ∃ w, selectBestCandidate [candFailedMetrics, candBadMetrics] false = some w ∧
      w ∈ [candFailedMetrics, candBadMetrics] ∧
      (∀ c ∈ [candFailedMetrics, candBadMetrics],
        c.config.quality ≤ w.config.quality) ∧
      ([candFailedMetrics, candBadMetrics].find?
        (fun c => decide (c.config.quality = w.config.quality))) = some w :=
  C2_fallback_law [candFailedMetrics, candBadMetrics] false (by simp)
    (by

      intro c hc
      rcases List.mem_cons.mp hc with rfl | hc
      · norm_num [candQualifies, candFailedMetrics]
      · rcases List.mem_cons.mp hc with rfl | hc
        · norm_num [candQualifies, candBadMetrics, qualifiesGate,
            meetsQualityCriteria, meetsRelaxedCriteria, lossyConfig]
        · cases hc)

/-- C3: every qualifying candidate is scored with the claim's formula
(weights (0.7, 0.3) normally, (0.5, 0.5) in quality-preserving mode), and
when a qualifier exists the selected winner is a qualifying candidate of
maximal score. -/
theorem C3_scoring_winner (candidates : List Candidate) (lossless : Bool)
    (hq : ∃ c ∈ candidates, candQualifies c = true) :
    (∀ (m : QualityMetrics) (sizeKB : ℚ),
      computeScore lossless m sizeKB =
        (m.ssim * 0.4 + (1 - min (m.deltaE / 10) 1) * 0.3 +
            m.edgePreservation * 0.3) * (if lossless then 0.5 else 0.7) +
          (1 / sizeKB) * (if lossless then 0.5 else 0.3)) ∧
    ∃ w, selectBestCandidate candidates lossless = some w ∧ w ∈ candidates ∧
      candQualifies w = true ∧
      ∀ c ∈ candidates, candQualifies c = true →
        candScore lossless c ≤ candScore lossless w := by
  refine ⟨fun m sizeKB => rfl, ?_⟩
  obtain ⟨b, s, hrun, hbq, hs, hmem, hbnd⟩ :=
    selectLoop_some_of_qualifier lossless candidates hq
  refine ⟨b, ?_, hmem, hbq, ?_⟩
  · rw [selectBestCandidate.eq_def, hrun]
  · intro c hc hqc
    rw [← hs]
    exact hbnd c hc hqc

/-- Witness for C3: one failed-metrics candidate and one qualifying
candidate. -/
theorem C3_scoring_winner_witness :
    (∀ (m : QualityMetrics) (sizeKB : ℚ),
      computeScore false m sizeKB =
        (m.ssim * 0.4 + (1 - min (m.deltaE / 10) 1) * 0.3 +
            m.edgePreservation * 0.3) * (if false then 0.5 else 0.7) +
          (1 / sizeKB) * (if false then 0.5 else 0.3)) ∧
    ∃ w, selectBestCandidate [candFailedMetrics, candGood] false = some w ∧
      w ∈ [candFailedMetrics, candGood] ∧ candQualifies w = true ∧
      ∀ c ∈ [candFailedMetrics, candGood], candQualifies c = true →
        candScore false c ≤ candScore false w :=
  C3_scoring_winner [candFailedMetrics, candGood] false
    ⟨candGood, by simp, by
      norm_num [candQualifies, candGood, qualifiesGate, meetsQualityCriteria,
        meetsRelaxedCriteria, lossyConfig]⟩

/-! ## Helper lemmas for the metric engine -/

/-- Zipping a list with itself duplicates each entry. -/
theorem zip_self_eq_map {α : Type} (l : List α) :
    l.zip l = l.map (fun a => (a, a)) := by
  induction l with
  | nil => rfl
  | cons a l ih => simp [List.zip_cons_cons, ih]

/-- A list of ones sums to its length. -/
theorem sum_of_all_ones (l : List ℚ) (h : ∀ x ∈ l, x = 1) :
    l.sum = l.length := by
  induction l with
  | nil => simp
  | cons a l ih =>
    rw [List.sum_cons, h a (List.mem_cons_self _ _),
      ih (fun x hx => h x (List.mem_cons_of_mem _ hx))]
    simp
    ring

/-- A nonempty list whose entries all exceed `b` sums to more than
`length · b`. -/
theorem sum_gt_of_all_gt (b : ℚ) :
    ∀ (l : List ℚ), l ≠ [] → (∀ x ∈ l, b < x) → (l.length : ℚ) * b < l.sum := by
  intro l
  induction l with
  | nil => intro h; exact absurd rfl h
  | cons a l ih =>
    intro _ h
    cases l with
    | nil =>
      simpa using h a (List.mem_cons_self _ _)
    | cons a2 l2 =>
      have h1 := h a (List.mem_cons_self _ _)
      have h2 := ih (by simp) (fun x hx => h x (List.mem_cons_of_mem _ hx))
      rw [List.sum_cons, List.length_cons]
      push_cast
      push_cast at h2
      nlinarith
/-- Variance is never negative. -/
theorem listVariance_nonneg (xs : List ℚ) (mu : ℚ) : 0 ≤ listVariance xs mu := by
  unfold listVariance
  apply div_nonneg
  · exact List.sum_nonneg (fun x hx => by
      rcases List.mem_map.mp hx with ⟨v, _, rfl⟩
      positivity)
  · positivity

/-- The mean of nonnegative samples is nonnegative. -/
theorem listMean_nonneg (xs : List ℚ) (h : ∀ x ∈ xs, 0 ≤ x) : 0 ≤ listMean xs := by
  unfold listMean
  exact div_nonneg (List.sum_nonneg h) (by positivity)

/-- Covariance of a list with itself is its variance. -/
theorem listCovariance_self (xs : List ℚ) (mu : ℚ) :
    listCovariance xs xs mu mu = listVariance xs mu := by
  unfold listCovariance listVariance
  rw [zip_self_eq_map, List.map_map]
  congr 1
  congr 1
  apply List.map_congr_left
  intro a _
  simp only [Function.comp_apply]
  ring

/-- The SSIM of a block against itself is exactly 1: numerator and
denominator coincide and are positive. -/
theorem blockSSIM_self (img : ImageData) (x y : ℕ) :
    blockSSIM img img x y = 1 := by
  simp only [blockSSIM]
  set mu := listMean (blockLums img x y) with hmu
  set v := listVariance (blockLums img x y) mu with hv
  rw [listCovariance_self]
  have hvpos : 0 ≤ v := listVariance_nonneg _ _
  have hden1 : 0 < mu * mu + mu * mu + ssimC1 := by
    unfold ssimC1; nlinarith [mul_self_nonneg mu]
  have hden2 : 0 < v + v + ssimC2 := by
    unfold ssimC2; nlinarith
  rw [show (2 * mu * mu + ssimC1) * (2 * v + ssimC2) =
      (mu * mu + mu * mu + ssimC1) * (v + v + ssimC2) from by ring]
  exact div_self (ne_of_gt (mul_pos hden1 hden2))

/-- With `1 ≤ limit` the block-start list is nonempty. -/
theorem blockStarts_ne_nil (limit : ℕ) (h : 1 ≤ limit) :
    blockStarts limit ≠ [] := by
  unfold blockStarts
  simp only [ne_eq, List.map_eq_nil_iff, List.range_eq_nil]
  omega

/-! ## C5: identical images -/

/-- Counterexample to C5: on two identical 1×1 grids, `calculateSSIM`
returns 0, not 1 (no full 8×8 block fits, so the block count is zero and the
0 fallback fires). -/
theorem C5_counterexample :
    calculateSSIM tiny1 tiny1 = Except.ok 0 ∧ (0 : ℚ) ≠ 1 :=
  ⟨rfl, by norm_num⟩

/-- C5 as amended: for identical well-formed RGBA grids large enough to
contain one full 8×8 SSIM block (width ≥ 9 and height ≥ 9), SSIM is 1, PSNR
is +∞, ΔE is 0 and edge preservation is 1; for smaller identical grids,
SSIM instead returns the no-block fallback 0. -/
theorem C5_identical_metrics (img : ImageData)
    (hw : 9 ≤ img.width) (hh : 9 ≤ img.height)
    (hlen : img.data.length = 4 * (img.width * img.height)) :
    calculateSSIM img img = .ok 1 ∧ calculatePSNR img img = .ok ⊤ ∧
    calculateDeltaE2000 img img = .ok 0 ∧
    calculateEdgePreservation img img = .ok 1 := by
  have hguard : ¬ (img.width ≠ img.width ∨ img.height ≠ img.height ∨
      img.data.length ≠ img.data.length) := by tauto
  refine ⟨?_, ?_, ?_, ?_⟩
  · -- SSIM
    simp only [calculateSSIM, if_neg hguard]
    have hall : ∀ s ∈ (blockStarts (img.height - blockSize)).flatMap
        (fun y => (blockStarts (img.width - blockSize)).map
          (fun x => blockSSIM img img x y)), s = 1 := by
      intro s hs
      rcases List.mem_flatMap.mp hs with ⟨y, _, hs⟩
      rcases List.mem_map.mp hs with ⟨x, _, rfl⟩
      exact blockSSIM_self img x y
    set scores := (blockStarts (img.height - blockSize)).flatMap
      (fun y => (blockStarts (img.width - blockSize)).map
        (fun x => blockSSIM img img x y)) with hscores
    have hys := blockStarts_ne_nil (img.height - blockSize)
      (by simp only [blockSize]; omega)
    have hxs := blockStarts_ne_nil (img.width - blockSize)
      (by simp only [blockSize]; omega)
    obtain ⟨y0, hy0⟩ := List.exists_mem_of_ne_nil _ hys
    have hne : scores ≠ [] := by
      rw [hscores]
      intro hnil
      rw [List.flatMap_eq_nil_iff] at hnil
      have hm := hnil y0 hy0
      rw [List.map_eq_nil_iff] at hm
      exact hxs hm
    have hpos : 0 < scores.length := List.length_pos.mpr hne
    rw [if_pos hpos, sum_of_all_ones scores hall]
    congr 1
    exact div_self (by exact_mod_cast Nat.pos_iff_ne_zero.mp hpos)
  · -- PSNR
    simp only [calculatePSNR, if_neg hguard]
    have hzero : (List.map (fun i =>
        (px img i - px img i) ^ 2 + (px img (i + 1) - px img (i + 1)) ^ 2 +
          (px img (i + 2) - px img (i + 2)) ^ 2)
        (strideIdxs img.data.length 4)).sum = 0 := by
      apply List.sum_eq_zero
      intro x hx
      rcases List.mem_map.mp hx with ⟨i, _, rfl⟩
      ring
    split
    · rfl
    · rename_i hneq
      rw [hzero, zero_div] at hneq
      exact absurd rfl hneq
  · -- deltaE
    simp only [calculateDeltaE2000, if_neg hguard]
    have hzero : (List.map (fun i =>
        deltaE2000 (rgbToLab (px img i) (px img (i + 1)) (px img (i + 2)))
          (rgbToLab (px img i) (px img (i + 1)) (px img (i + 2))))
        (strideIdxs img.data.length (4 * samplingRate))).sum = 0 := by
      apply List.sum_eq_zero
      intro x hx
      rcases List.mem_map.mp hx with ⟨i, _, rfl⟩
      unfold deltaE2000
      simp [sub_self]
    split
    · rw [hzero, zero_div]
    · rfl
  · -- edge preservation
    have hguard2 : ¬ (img.width ≠ img.width ∨ img.height ≠ img.height) := by
      tauto
    simp only [calculateEdgePreservation, if_neg hguard2]
    have hcong : List.countP
        (fun p => decide ((p.1 > 0.1 ∨ p.2 > 0.1) ∧ |p.1 - p.2| < 0.1))
        ((detectEdges img).zip (detectEdges img)) =
      List.countP (fun p => decide (p.1 > 0.1 ∨ p.2 > 0.1))
        ((detectEdges img).zip (detectEdges img)) := by
      apply List.countP_congr
      intro p hp
      rw [zip_self_eq_map] at hp
      rcases List.mem_map.mp hp with ⟨a, _, rfl⟩
      have habs : |a - a| < 0.1 := by
        simp only [sub_self, abs_zero]
        norm_num
      simp [habs]
      intro _
      norm_num
    rw [hcong]
    split
    · rename_i htot
      rw [div_self (by exact_mod_cast Nat.pos_iff_ne_zero.mp htot)]
    · rfl

/-- Witness for C5 at a concrete identical 9×9 pair. -/
theorem C5_identical_metrics_witness :
    calculateSSIM img9 img9 = .ok 1 ∧ calculatePSNR img9 img9 = .ok ⊤ ∧
    calculateDeltaE2000 img9 img9 = .ok 0 ∧
    calculateEdgePreservation img9 img9 = .ok 1 :=
  C5_identical_metrics img9 (by norm_num [img9]) (by norm_num [img9])
    (by simp only [img9, List.length_replicate])

/-- Pixel reads are nonnegative. -/
theorem px_nonneg (img : ImageData) (i : ℕ) : 0 ≤ px img i := by
  unfold px
  positivity

/-- Pixel reads from a byte-valued grid are at most 255 (out-of-range reads
give the default 0). -/
theorem px_le_255 (img : ImageData) (h : ∀ b ∈ img.data, b ≤ 255) (i : ℕ) :
    px img i ≤ 255 := by
  unfold px
  by_cases hi : i < img.data.length
  · rw [List.getD_eq_getElem img.data 0 hi]
    exact_mod_cast h _ (List.getElem_mem hi)
  · unfold List.getD
    rw [List.get?_eq_none.mpr (by omega)]
    norm_num

/-- Luminance samples are nonnegative. -/
theorem lumAt_nonneg (img : ImageData) (x y : ℕ) : 0 ≤ lumAt img x y := by
  unfold lumAt rgbToLuminance
  have h1 := px_nonneg img ((y * img.width + x) * 4)
  have h2 := px_nonneg img ((y * img.width + x) * 4 + 1)
  have h3 := px_nonneg img ((y * img.width + x) * 4 + 2)
  nlinarith

/-- Every entry of a luminance block is nonnegative. -/
theorem blockLums_nonneg (img : ImageData) (x y : ℕ) :
    ∀ v ∈ blockLums img x y, 0 ≤ v := by
  intro v hv
  rcases List.mem_flatMap.mp hv with ⟨dy, _, hv⟩
  rcases List.mem_map.mp hv with ⟨dx, _, rfl⟩
  exact lumAt_nonneg img _ _

/-- A luminance block has exactly 64 samples. -/
theorem blockLums_length (img : ImageData) (x y : ℕ) :
    (blockLums img x y).length = 64 := by
  simp [blockLums, blockSize, Function.comp_def, List.range_succ]

/-- Splitting a squared difference of recentered samples over a zipped
list. -/
theorem sum_sub_sq (l : List (ℚ × ℚ)) (mu1 mu2 : ℚ) :
    (l.map (fun p => ((p.1 - mu1) - (p.2 - mu2)) ^ 2)).sum =
      (l.map (fun p => (p.1 - mu1) ^ 2)).sum +
        (l.map (fun p => (p.2 - mu2) ^ 2)).sum -
        2 * (l.map (fun p => (p.1 - mu1) * (p.2 - mu2))).sum := by
  induction l with
  | nil => simp
  | cons a l ih =>
    simp only [List.map_cons, List.sum_cons]
    rw [ih]
    ring

/-- Splitting a squared sum of recentered samples over a zipped list. -/
theorem sum_add_sq (l : List (ℚ × ℚ)) (mu1 mu2 : ℚ) :
    (l.map (fun p => ((p.1 - mu1) + (p.2 - mu2)) ^ 2)).sum =
      (l.map (fun p => (p.1 - mu1) ^ 2)).sum +
        (l.map (fun p => (p.2 - mu2) ^ 2)).sum +
        2 * (l.map (fun p => (p.1 - mu1) * (p.2 - mu2))).sum := by
  induction l with
  | nil => simp
  | cons a l ih =>
    simp only [List.map_cons, List.sum_cons]
    rw [ih]
    ring

/-- Mapping a function of the first components over a zip of equally long
lists sums like mapping over the first list. -/
theorem zip_map_fst_sum (l1 l2 : List ℚ) (f : ℚ → ℚ) (h : l1.length = l2.length) :
    ((l1.zip l2).map (fun p => f p.1)).sum = (l1.map f).sum := by
  rw [show (fun p : ℚ × ℚ => f p.1) = f ∘ Prod.fst from rfl, ← List.map_map,
    List.map_fst_zip l1 l2 (le_of_eq h)]

/-- Mapping a function of the second components over a zip of equally long
lists sums like mapping over the second list. -/
theorem zip_map_snd_sum (l1 l2 : List ℚ) (f : ℚ → ℚ) (h : l1.length = l2.length) :
    ((l1.zip l2).map (fun p => f p.2)).sum = (l2.map f).sum := by
  rw [show (fun p : ℚ × ℚ => f p.2) = f ∘ Prod.snd from rfl, ← List.map_map,
    List.map_snd_zip l1 l2 (ge_of_eq h)]

/-- Bounds for the SSIM fraction: a factor in (0, 1] times a factor in
(-1, 1] stays in (-1, 1]. -/
theorem frac_bounds (num1 den1 num2 den2 : ℚ) (h1 : 0 < num1) (h2 : num1 ≤ den1)
    (h3 : num2 ≤ den2) (h4 : -den2 < num2) (h6 : 0 < den2) :
    -1 < num1 * num2 / (den1 * den2) ∧ num1 * num2 / (den1 * den2) ≤ 1 := by
  have h5 : 0 < den1 := lt_of_lt_of_le h1 h2
  constructor
  · rw [lt_div_iff₀ (mul_pos h5 h6)]
    nlinarith [mul_pos h1 (show (0 : ℚ) < num2 + den2 from by linarith),
      mul_le_mul_of_nonneg_right h2 h6.le]
  · rw [div_le_one (mul_pos h5 h6)]
    nlinarith [mul_nonneg (sub_nonneg.mpr h2) h6.le,
      mul_nonneg h1.le (sub_nonneg.mpr h3)]

/-- Each block SSIM lies in the half-open interval (-1, 1]: the luminance
factor lies in (0, 1] and the structure factor in (-1, 1]. -/
theorem blockSSIM_bounds (img1 img2 : ImageData) (x y : ℕ) :
    -1 < blockSSIM img1 img2 x y ∧ blockSSIM img1 img2 x y ≤ 1 := by
  simp only [blockSSIM]
  set b1 := blockLums img1 x y with hb1
  set b2 := blockLums img2 x y with hb2
  set mu1 := listMean b1 with hmu1
  set mu2 := listMean b2 with hmu2
  have hlen1 : b1.length = 64 := blockLums_length img1 x y
  have hlen2 : b2.length = 64 := blockLums_length img2 x y
  have hmu1n : 0 ≤ mu1 := listMean_nonneg _ (blockLums_nonneg img1 x y)
  have hmu2n : 0 ≤ mu2 := listMean_nonneg _ (blockLums_nonneg img2 x y)
  set A := (b1.map (fun v => (v - mu1) ^ 2)).sum with hA
  set B := (b2.map (fun v => (v - mu2) ^ 2)).sum with hB
  set S := ((b1.zip b2).map (fun p => (p.1 - mu1) * (p.2 - mu2))).sum with hS
  have hAn : 0 ≤ A := List.sum_nonneg (fun q hq => by
    rcases List.mem_map.mp hq with ⟨v, _, rfl⟩; positivity)
  have hBn : 0 ≤ B := List.sum_nonneg (fun q hq => by
    rcases List.mem_map.mp hq with ⟨v, _, rfl⟩; positivity)
  have hABsub : 0 ≤ A + B - 2 * S := by
    rw [hA, hB, hS, ← zip_map_fst_sum b1 b2 _ (by omega),
      ← zip_map_snd_sum b1 b2 _ (by omega), ← sum_sub_sq]
    exact List.sum_nonneg (fun q hq => by
      rcases List.mem_map.mp hq with ⟨p, _, rfl⟩; positivity)
  have hABadd : 0 ≤ A + B + 2 * S := by
    rw [hA, hB, hS, ← zip_map_fst_sum b1 b2 _ (by omega),
      ← zip_map_snd_sum b1 b2 _ (by omega), ← sum_add_sq]
    exact List.sum_nonneg (fun q hq => by
      rcases List.mem_map.mp hq with ⟨p, _, rfl⟩; positivity)
  have hvar1 : listVariance b1 mu1 = A / 64 := by
    rw [listVariance, hlen1, hA]
    norm_num
  have hvar2 : listVariance b2 mu2 = B / 64 := by
    rw [listVariance, hlen2, hB]
    norm_num
  have hcov : listCovariance b1 b2 mu1 mu2 = S / 64 := by
    rw [listCovariance, hlen1, hS]
    norm_num
  rw [hvar1, hvar2, hcov]
  set num1 := 2 * mu1 * mu2 + ssimC1 with hnum1
  set den1 := mu1 * mu1 + mu2 * mu2 + ssimC1 with hden1
  set num2 := 2 * (S / 64) + ssimC2 with hnum2
  set den2 := A / 64 + B / 64 + ssimC2 with hden2
  have hC1 : ssimC1 = 6.5025 := rfl
  have hC2 : ssimC2 = 58.5225 := rfl
  have h1 : 0 < num1 := by
    rw [hnum1, hC1]
    nlinarith
  have h2 : num1 ≤ den1 := by
    rw [hnum1, hden1]
    nlinarith [sq_nonneg (mu1 - mu2)]
  have h3 : num2 ≤ den2 := by
    rw [hnum2, hden2]
    linarith
  have h4 : -den2 < num2 := by
    rw [hnum2, hden2, hC2]
    nlinarith
  have h6 : 0 < den2 := by
    rw [hden2, hC2]
    nlinarith
  exact frac_bounds num1 den1 num2 den2 h1 h2 h3 h4 h6

/-! ## C6: metric ranges -/

section RatEval

attribute [local semireducible] Rat.add Rat.mul Rat.sub Rat.inv Rat.ofScientific

set_option maxRecDepth 40000 in
/-- Counterexample to C6's SSIM range claim: on a 9×9 checkerboard and its
inverse (equal-size byte-valued grids), `calculateSSIM` returns the negative
value -4991/5009 ≈ -0.9964, so SSIM is not confined to [0, 1]. -/
theorem C6_counterexample :
    calculateSSIM cbImg1 cbImg2 = Except.ok (-4991 / 5009 : ℚ) ∧
      (-4991 / 5009 : ℚ) < 0 :=
  ⟨rfl, by norm_num⟩

end RatEval

/-- The stride list over a positive length is nonempty. -/
theorem strideIdxs_len_pos (len step : ℕ) (h : 0 < len) (hs : 0 < step) :
    0 < (strideIdxs len step).length := by
  simp only [strideIdxs, List.length_map, List.length_range]
  exact Nat.div_pos (by omega) hs

/-- C6 as amended: for equal-size byte-valued grids with at least one pixel,
`calculateSSIM` lies in the half-open interval (-1, 1] (it can be negative
for anticorrelated images, so the claimed [0, 1] fails), edge preservation
lies in [0, 1], PSNR is nonnegative or +∞, and ΔE is nonnegative. -/
theorem C6_metric_ranges (img1 img2 : ImageData)
    (hw : img1.width = img2.width) (hh : img1.height = img2.height)
    (hl : img1.data.length = img2.data.length)
    (hby1 : ∀ b ∈ img1.data, b ≤ 255) (hby2 : ∀ b ∈ img2.data, b ≤ 255)
    (hpos : 0 < img1.data.length) :
    (∃ s, calculateSSIM img1 img2 = .ok s ∧ -1 < s ∧ s ≤ 1) ∧
    (∃ p, calculatePSNR img1 img2 = .ok p ∧ 0 ≤ p) ∧
    (∃ d, calculateDeltaE2000 img1 img2 = .ok d ∧ 0 ≤ d) ∧
    (∃ e, calculateEdgePreservation img1 img2 = .ok e ∧ 0 ≤ e ∧ e ≤ 1) := by
  have hguard : ¬ (img1.width ≠ img2.width ∨ img1.height ≠ img2.height ∨
      img1.data.length ≠ img2.data.length) := by tauto
  refine ⟨?_, ?_, ?_, ?_⟩
  · -- SSIM ∈ (-1, 1]
    simp only [calculateSSIM, if_neg hguard]
    set scores := (blockStarts (img1.height - blockSize)).flatMap
      (fun y => (blockStarts (img1.width - blockSize)).map
        (fun x => blockSSIM img1 img2 x y)) with hscores
    have hlow : ∀ s ∈ scores, -1 < s := by
      intro s hs
      rcases List.mem_flatMap.mp hs with ⟨y, _, hs⟩
      rcases List.mem_map.mp hs with ⟨x, _, rfl⟩
      exact (blockSSIM_bounds img1 img2 x y).1
    have hhigh : ∀ s ∈ scores, s ≤ 1 := by
      intro s hs
      rcases List.mem_flatMap.mp hs with ⟨y, _, hs⟩
      rcases List.mem_map.mp hs with ⟨x, _, rfl⟩
      exact (blockSSIM_bounds img1 img2 x y).2
    by_cases hsc : 0 < scores.length
    · rw [if_pos hsc]
      have hcast : (0 : ℚ) < scores.length := by exact_mod_cast hsc
      refine ⟨_, rfl, ?_, ?_⟩
      · rw [lt_div_iff₀ hcast]
        have hgt := sum_gt_of_all_gt (-1) scores
          (List.length_pos.mp hsc) hlow
        linarith
      · rw [div_le_one hcast]
        have hle := List.sum_le_card_nsmul scores 1 hhigh
        rw [nsmul_eq_mul, mul_one] at hle
        exact hle
    · rw [if_neg hsc]
      exact ⟨0, rfl, by norm_num, by norm_num⟩
  · -- PSNR ≥ 0 or ⊤
    simp only [calculatePSNR, if_neg hguard]
    set idxs := strideIdxs img1.data.length 4 with hidxs
    set M := (idxs.map (fun i =>
      (px img1 i - px img2 i) ^ 2 + (px img1 (i + 1) - px img2 (i + 1)) ^ 2 +
        (px img1 (i + 2) - px img2 (i + 2)) ^ 2)).sum with hM
    have hM0 : 0 ≤ M := by
      rw [hM]
      apply List.sum_nonneg
      intro q hq
      rcases List.mem_map.mp hq with ⟨i, _, rfl⟩
      positivity
    have hMle : M ≤ (idxs.length : ℚ) * 195075 := by
      rw [hM]
      have hb := List.sum_le_card_nsmul (idxs.map (fun i =>
        (px img1 i - px img2 i) ^ 2 + (px img1 (i + 1) - px img2 (i + 1)) ^ 2 +
          (px img1 (i + 2) - px img2 (i + 2)) ^ 2)) 195075 ?_
      · rw [nsmul_eq_mul, List.length_map] at hb
        exact hb
      · intro q hq
        rcases List.mem_map.mp hq with ⟨i, _, rfl⟩
        have hsq : ∀ j : ℕ, (px img1 j - px img2 j) ^ 2 ≤ 65025 := by
          intro j
          have h1 := px_nonneg img1 j
          have h2 := px_nonneg img2 j
          have h3 := px_le_255 img1 hby1 j
          have h4 := px_le_255 img2 hby2 j
          nlinarith
        have := hsq i
        have := hsq (i + 1)
        have := hsq (i + 2)
        linarith
    have hlenpos : 0 < idxs.length := by
      rw [hidxs]
      exact strideIdxs_len_pos _ _ hpos (by norm_num)
    have hcpos : (0 : ℚ) < ((3 * idxs.length : ℕ) : ℚ) := by
      have : 0 < 3 * idxs.length := by omega
      exact_mod_cast this
    split
    · exact ⟨⊤, rfl, le_top⟩
    · rename_i hne
      refine ⟨_, rfl, ?_⟩
      rw [EReal.coe_nonneg]
      have hmse0 : 0 ≤ M / ((3 * idxs.length : ℕ) : ℚ) :=
        div_nonneg hM0 hcpos.le
      have hmsepos : 0 < M / ((3 * idxs.length : ℕ) : ℚ) :=
        lt_of_le_of_ne hmse0 (Ne.symm hne)
      have hmsele : M / ((3 * idxs.length : ℕ) : ℚ) ≤ 65025 := by
        rw [div_le_iff₀ hcpos]
        push_cast
        push_cast at hMle
        linarith
      set mse := M / ((3 * idxs.length : ℕ) : ℚ) with hmse
      have hr0 : (0 : ℝ) < (mse : ℝ) := by exact_mod_cast hmsepos
      have hrle : (mse : ℝ) ≤ 65025 := by exact_mod_cast hmsele
      have hsqrtpos : 0 < Real.sqrt (mse : ℝ) := Real.sqrt_pos.mpr hr0
      have hsqrtle : Real.sqrt (mse : ℝ) ≤ 255 := by
        have h65 : Real.sqrt 65025 = 255 := by
          rw [show (65025 : ℝ) = 255 ^ 2 by norm_num]
          exact Real.sqrt_sq (by norm_num)
        calc Real.sqrt (mse : ℝ) ≤ Real.sqrt 65025 := Real.sqrt_le_sqrt hrle
          _ = 255 := h65
      have hdiv : 1 ≤ 255 / Real.sqrt (mse : ℝ) :=
        (one_le_div hsqrtpos).mpr hsqrtle
      have hlog : 0 ≤ Real.logb 10 (255 / Real.sqrt (mse : ℝ)) :=
        Real.logb_nonneg (by norm_num) hdiv
      linarith
  · -- ΔE ≥ 0
    simp only [calculateDeltaE2000, if_neg hguard]
    have hsum : 0 ≤ ((strideIdxs img1.data.length (4 * samplingRate)).map
        (fun i => deltaE2000
          (rgbToLab (px img1 i) (px img1 (i + 1)) (px img1 (i + 2)))
          (rgbToLab (px img2 i) (px img2 (i + 1)) (px img2 (i + 2))))).sum := by
      apply List.sum_nonneg
      intro q hq
      rcases List.mem_map.mp hq with ⟨i, _, rfl⟩
      exact Real.sqrt_nonneg _
    split
    · rename_i hlenp
      refine ⟨_, rfl, ?_⟩
      apply div_nonneg hsum
      positivity
    · exact ⟨0, rfl, le_refl 0⟩
  · -- edge preservation ∈ [0, 1]
    have hguard2 : ¬ (img1.width ≠ img2.width ∨ img1.height ≠ img2.height) := by
      tauto
    simp only [calculateEdgePreservation, if_neg hguard2]
    split
    · rename_i htot
      have htotc : (0 : ℝ) < (List.countP
          (fun p => decide (p.1 > 0.1 ∨ p.2 > 0.1))
          ((detectEdges img1).zip (detectEdges img2)) : ℝ) := by
        exact_mod_cast htot
      refine ⟨_, rfl, ?_, ?_⟩
      · positivity
      · rw [div_le_one htotc]
        have hmono : List.countP
            (fun p => decide ((p.1 > 0.1 ∨ p.2 > 0.1) ∧ |p.1 - p.2| < 0.1))
            ((detectEdges img1).zip (detectEdges img2)) ≤
          List.countP (fun p => decide (p.1 > 0.1 ∨ p.2 > 0.1))
            ((detectEdges img1).zip (detectEdges img2)) := by
          apply List.countP_mono_left
          intro a _ h
          simp only [decide_eq_true_eq] at h ⊢
          exact h.1
        exact_mod_cast hmono
    · exact ⟨1, rfl, by norm_num, le_refl 1⟩

/-- Witness for C6 at two concrete distinct 1×1 grids. -/
theorem C6_metric_ranges_witness :
    (∃ s, calculateSSIM tiny1 tinyColor = .ok s ∧ -1 < s ∧ s ≤ 1) ∧
    (∃ p, calculatePSNR tiny1 tinyColor = .ok p ∧ 0 ≤ p) ∧
    (∃ d, calculateDeltaE2000 tiny1 tinyColor = .ok d ∧ 0 ≤ d) ∧
    (∃ e, calculateEdgePreservation tiny1 tinyColor = .ok e ∧ 0 ≤ e ∧ e ≤ 1) :=
  C6_metric_ranges tiny1 tinyColor rfl rfl rfl (by decide) (by decide)
    (by decide)

/-! ## C10: gradient-free images trivially preserve edges -/

/-- C10: whenever no position of either image carries a normalized Sobel
magnitude above the 0.1 edge threshold (uniform images, for instance), edge
preservation is exactly 1, however different the images are. -/
theorem C10_no_edges_full_preservation (img1 img2 : ImageData)
    (hw : img1.width = img2.width) (hh : img1.height = img2.height)
    (he1 : ∀ e ∈ detectEdges img1, e ≤ 0.1)
    (he2 : ∀ e ∈ detectEdges img2, e ≤ 0.1) :
    calculateEdgePreservation img1 img2 = .ok 1 := by
  have hguard : ¬ (img1.width ≠ img2.width ∨ img1.height ≠ img2.height) := by
    tauto
  simp only [calculateEdgePreservation, if_neg hguard]
  have htot : List.countP (fun p => decide (p.1 > 0.1 ∨ p.2 > 0.1))
      ((detectEdges img1).zip (detectEdges img2)) = 0 := by
    rw [List.countP_eq_zero]
    intro p hp
    obtain ⟨hp1, hp2⟩ := List.of_mem_zip hp
    have h1 := he1 p.1 hp1
    have h2 := he2 p.2 hp2
    simp only [decide_eq_true_eq]
    push_neg
    constructor <;> assumption
  rw [htot]
  norm_num

/-- One read of a constant byte grid. -/
theorem px_const (img : ImageData) (c : ℕ) (hc : ∀ b ∈ img.data, b = c)
    (i : ℕ) (hi : i < img.data.length) : px img i = c := by
  unfold px
  rw [List.getD_eq_getElem img.data 0 hi]
  exact_mod_cast hc _ (List.getElem_mem hi)

/-- Luminance of a constant byte grid at an in-range pixel. -/
theorem lumAt_const (img : ImageData) (c : ℕ) (hc : ∀ b ∈ img.data, b = c)
    (hlen : img.data.length = 4 * (img.width * img.height))
    (x y : ℕ) (hx : x < img.width) (hy : y < img.height) :
    lumAt img x y = c := by
  have hidx : (y * img.width + x) * 4 + 2 < img.data.length := by
    rw [hlen]
    have h1 : y * img.width + x < img.width * img.height := by
      calc y * img.width + x < y * img.width + img.width := by omega
        _ = (y + 1) * img.width := by ring
        _ ≤ img.height * img.width := Nat.mul_le_mul_right _ (by omega)
        _ = img.width * img.height := Nat.mul_comm _ _
    omega
  simp only [lumAt]
  rw [px_const img c hc _ (by omega), px_const img c hc _ (by omega),
    px_const img c hc _ (by omega)]
  simp only [rgbToLuminance]
  ring_nf

/-- The Sobel gradient of a constant byte grid vanishes at interior
pixels. -/
theorem sobelMag_const (img : ImageData) (c : ℕ) (hc : ∀ b ∈ img.data, b = c)
    (hlen : img.data.length = 4 * (img.width * img.height))
    (x y : ℕ) (hx1 : 1 ≤ x) (hx2 : x + 1 < img.width)
    (hy1 : 1 ≤ y) (hy2 : y + 1 < img.height) :
    sobelMag img x y = (0, 0) := by
  have hl : ∀ kx ky : ℕ, kx ≤ 2 → ky ≤ 2 →
      lumAt img (x - 1 + kx) (y - 1 + ky) = c := by
    intro kx ky hkx hky
    exact lumAt_const img c hc hlen _ _ (by omega) (by omega)
  have hr3 : List.range 3 = [0, 1, 2] := rfl
  simp only [sobelMag, hr3, List.flatMap_cons, List.flatMap_nil,
    List.map_cons, List.map_nil, List.append_nil, List.cons_append,
    List.nil_append, List.sum_cons, List.sum_nil, sobelX, sobelY]
  rw [hl 0 0 (by norm_num) (by norm_num), hl 1 0 (by norm_num) (by norm_num),
    hl 2 0 (by norm_num) (by norm_num), hl 0 1 (by norm_num) (by norm_num),
    hl 1 1 (by norm_num) (by norm_num), hl 2 1 (by norm_num) (by norm_num),
    hl 0 2 (by norm_num) (by norm_num), hl 1 2 (by norm_num) (by norm_num),
    hl 2 2 (by norm_num) (by norm_num)]
  rw [Prod.mk.injEq]
  constructor <;> ring

/-- Every detected-edge magnitude of a constant byte grid is 0. -/
theorem detectEdges_const (img : ImageData) (c : ℕ)
    (hc : ∀ b ∈ img.data, b = c)
    (hlen : img.data.length = 4 * (img.width * img.height)) :
    ∀ e ∈ detectEdges img, e = 0 := by
  intro e he
  simp only [detectEdges] at he
  rcases List.mem_map.mp he with ⟨i, _, rfl⟩
  split
  · rename_i hint
    obtain ⟨h1, h2, h3, h4⟩ := hint
    rw [sobelMag_const img c hc hlen _ _ h3 h4 h1 h2]
    norm_num
  · rfl

/-- Witness for C10: a black and a white uniform 3×3 image, completely
different yet with edge preservation exactly 1. -/
theorem C10_no_edges_full_preservation_witness :
    calculateEdgePreservation flat3black flat3white = .ok 1 :=
  C10_no_edges_full_preservation flat3black flat3white rfl rfl
    (fun e he => by
      rw [detectEdges_const flat3black 0
        (fun b hb => List.eq_of_mem_replicate hb)
        (by simp only [flat3black, List.length_replicate]) e he]
      norm_num)
    (fun e he => by
      rw [detectEdges_const flat3white 255
        (fun b hb => List.eq_of_mem_replicate hb)
        (by simp only [flat3white, List.length_replicate]) e he]
      norm_num)
